import Mathlib

/-!
Verification development for the `lilbig` library: utilities for swapping the
byte-order of in-memory values.  The repository contains two near-duplicate
revisions of the library (`src/` and `lib/src/`); both are embedded below.

Modelling conventions:
* Machine unsigned integers of `n` bytes are `Nat` values together with the
  side condition `v < 256 ^ n`.
* Machine signed integers of `n` bytes are `Int` values together with the
  side condition `-2^(8n-1) ≤ v < 2^(8n-1)`; `swap_bytes` on them goes through
  the two's-complement bit pattern, as Rust's `iN::swap_bytes` does.
* `f32`/`f64` values are their IEEE bit patterns (a structure wrapping the
  same-width unsigned integer); `to_bits`/`from_bits` are the reinterpreting
  casts, so equality of the model is exactly bit-pattern equality.
* The target's native byte-order (`ByteOrder::NATIVE`, resolved from
  `cfg(target_endian)` at compile time) is an explicit parameter `native`.
* Rust traits become structures holding the one required method; `&mut self`
  methods become state-passing functions `α → α`.
-/

/-- Enumeration providing byte-order variants (`ByteOrder` in `src/lib.rs`). -/
inductive ByteOrder : Type where
  /-- Little-endian. -/
  | Le : ByteOrder
  /-- Big-endian. -/
  | Be : ByteOrder
deriving DecidableEq, Repr

/-- Retrieves the opposite byte-order (`ByteOrder::opposite`). -/
def ByteOrder.opposite : ByteOrder → ByteOrder
  | .Le => .Be
  | .Be => .Le

/-- Checks whether `self` is the compilation target's native byte-order
(`ByteOrder::is_native`); the target's `NATIVE` constant is the explicit
parameter `native`. -/
def ByteOrder.is_native (self native : ByteOrder) : Bool :=
  self = native

/-- Little-endian byte decomposition of a natural number: the `n` low-order
base-256 digits, least significant first.  This models the in-memory
representation on which `swap_bytes` operates. -/
def leBytes : Nat → Nat → List Nat
  | 0, _ => []
  | n + 1, v => v % 256 :: leBytes n (v / 256)

/-- Recomposition of a little-endian byte list into a natural number. -/
def ofBytesLe : List Nat → Nat
  | [] => 0
  | b :: bs => b + 256 * ofBytesLe bs

/-- Model of Rust's `uN::swap_bytes` for an `numBytes`-byte unsigned integer:
reverse the byte representation. -/
def Nat.swap_bytes (numBytes : Nat) (v : Nat) : Nat :=
  ofBytesLe (leBytes numBytes v).reverse

/-- Two's-complement bit pattern of a `w`-bit signed integer, as used by
Rust's `as uN` cast. -/
def intToBits (w : Nat) (v : Int) : Nat :=
  (v % ((2 : Int) ^ w)).toNat

/-- Signed reinterpretation of a `w`-bit pattern, as used by Rust's `as iN`
cast. -/
def intOfBits (w : Nat) (b : Nat) : Int :=
  if b < 2 ^ (w - 1) then (b : Int) else (b : Int) - 2 ^ w

/-- Model of Rust's `iN::swap_bytes`: reverse the bytes of the
two's-complement representation. -/
def Int.swap_bytes (numBytes : Nat) (v : Int) : Int :=
  intOfBits (8 * numBytes) (Nat.swap_bytes numBytes (intToBits (8 * numBytes) v))

theorem leBytes_length (n v : Nat) : (leBytes n v).length = n := by
  induction n generalizing v with
  | zero => rfl
  | succ n ih => simp [leBytes, ih]

theorem leBytes_lt (n v : Nat) : ∀ b ∈ leBytes n v, b < 256 := by
  induction n generalizing v with
  | zero => intro b hb; simp [leBytes] at hb
  | succ n ih =>
    intro b hb
    simp only [leBytes, List.mem_cons] at hb
    rcases hb with h | h
    · omega
    · exact ih (v / 256) b h

theorem ofBytesLe_leBytes {n v : Nat} (h : v < 256 ^ n) :
    ofBytesLe (leBytes n v) = v := by
  induction n generalizing v with
  | zero =>
    have : v = 0 := by simpa using h
    simp [this, leBytes, ofBytesLe]
  | succ n ih =>
    have hdiv : v / 256 < 256 ^ n := by
      rw [Nat.div_lt_iff_lt_mul (by norm_num : 0 < 256)]
      calc v < 256 ^ (n + 1) := h
        _ = 256 ^ n * 256 := by ring
    simp only [leBytes, ofBytesLe, ih hdiv]
    omega

theorem leBytes_ofBytesLe {l : List Nat} (h : ∀ b ∈ l, b < 256) :
    leBytes l.length (ofBytesLe l) = l := by
  induction l with
  | nil => rfl
  | cons b bs ih =>
    have hb : b < 256 := h b (List.mem_cons_self b bs)
    have hmod : (b + 256 * ofBytesLe bs) % 256 = b := by
      rw [Nat.add_mul_mod_self_left]
      exact Nat.mod_eq_of_lt hb
    have hdiv : (b + 256 * ofBytesLe bs) / 256 = ofBytesLe bs := by
      rw [Nat.add_mul_div_left _ _ (by norm_num : 0 < 256)]
      simp [Nat.div_eq_of_lt hb]
    simp only [List.length_cons, leBytes, ofBytesLe, hmod, hdiv]
    exact congrArg (b :: ·) (ih fun x hx => h x (List.mem_cons_of_mem b hx))

theorem ofBytesLe_lt {l : List Nat} (h : ∀ b ∈ l, b < 256) :
    ofBytesLe l < 256 ^ l.length := by
  induction l with
  | nil => simp [ofBytesLe]
  | cons b bs ih =>
    have hb : b < 256 := h b (List.mem_cons_self b bs)
    have htl : ofBytesLe bs < 256 ^ bs.length :=
      ih fun x hx => h x (List.mem_cons_of_mem b hx)
    simp only [ofBytesLe, List.length_cons, pow_succ]
    calc b + 256 * ofBytesLe bs
        < 256 + 256 * ofBytesLe bs := by omega
      _ = 256 * (ofBytesLe bs + 1) := by ring
      _ ≤ 256 * 256 ^ bs.length := by
          exact Nat.mul_le_mul_left 256 htl
      _ = 256 ^ bs.length * 256 := by ring

theorem leBytes_swap_bytes (n v : Nat) :
    leBytes n (Nat.swap_bytes n v) = (leBytes n v).reverse := by
  have hlen : (leBytes n v).reverse.length = n := by
    simp [leBytes_length]
  have hmem : ∀ b ∈ (leBytes n v).reverse, b < 256 := by
    intro b hb
    exact leBytes_lt n v b (List.mem_reverse.mp hb)
  have := leBytes_ofBytesLe hmem
  rw [hlen] at this
  simpa [Nat.swap_bytes] using this

theorem swap_bytes_lt (n v : Nat) :
    Nat.swap_bytes n v < 256 ^ n := by
  have hmem : ∀ b ∈ (leBytes n v).reverse, b < 256 := by
    intro b hb
    exact leBytes_lt n v b (List.mem_reverse.mp hb)
  have := ofBytesLe_lt hmem
  simpa [Nat.swap_bytes, leBytes_length] using this

theorem swap_bytes_involutive {n v : Nat} (h : v < 256 ^ n) :
    Nat.swap_bytes n (Nat.swap_bytes n v) = v := by
  have h1 : Nat.swap_bytes n (Nat.swap_bytes n v)
      = ofBytesLe (leBytes n (Nat.swap_bytes n v)).reverse := rfl
  rw [h1, leBytes_swap_bytes n v, List.reverse_reverse]
  exact ofBytesLe_leBytes h

theorem pow256_eq (n : Nat) : 256 ^ n = 2 ^ (8 * n) := by
  rw [pow_mul]
  norm_num

theorem intToBits_lt (w : Nat) (v : Int) : intToBits w v < 2 ^ w := by
  have hpos : (0 : Int) < (2 : Int) ^ w := by positivity
  have h1 := Int.emod_lt_of_pos v hpos
  have h2 := Int.emod_nonneg v hpos.ne'
  have hcw : ((2 ^ w : Nat) : Int) = (2 : Int) ^ w := by push_cast; ring
  unfold intToBits
  omega

theorem intOfBits_intToBits {w : Nat} (hw : 0 < w) {v : Int}
    (hlo : -((2 : Int) ^ (w - 1)) ≤ v) (hhi : v < (2 : Int) ^ (w - 1)) :
    intOfBits w (intToBits w v) = v := by
  have hsplit : (2 : Int) ^ w = 2 ^ (w - 1) * 2 := by
    conv_lhs => rw [show w = w - 1 + 1 by omega]
    rw [pow_succ]
  have hK : (0 : Int) < 2 ^ (w - 1) := by positivity
  have hcw : ((2 ^ w : Nat) : Int) = (2 : Int) ^ w := by push_cast; ring
  have hcK : ((2 ^ (w - 1) : Nat) : Int) = (2 : Int) ^ (w - 1) := by push_cast; ring
  have hmod : v % ((2 : Int) ^ w) = if 0 ≤ v then v else v + 2 ^ w := by
    split
    · exact Int.emod_eq_of_lt (by assumption) (by omega)
    · have h1 : v % ((2 : Int) ^ w) = (v + 2 ^ w * 1) % 2 ^ w := by
        rw [Int.add_mul_emod_self_left]
      rw [h1, mul_one]
      exact Int.emod_eq_of_lt (by omega) (by omega)
  simp only [intToBits, intOfBits, hmod]
  by_cases h0 : 0 ≤ v
  · simp only [if_pos h0]
    split <;> omega
  · simp only [if_neg h0]
    split <;> omega

theorem intToBits_intOfBits {w b : Nat} (hb : b < 2 ^ w) :
    intToBits w (intOfBits w b) = b := by
  have hpos : (0 : Int) < (2 : Int) ^ w := by positivity
  have hcw : ((2 ^ w : Nat) : Int) = (2 : Int) ^ w := by push_cast; ring
  simp only [intOfBits, intToBits]
  split
  · rw [Int.emod_eq_of_lt (by positivity) (by omega)]
    omega
  · have h1 : ((b : Int) - 2 ^ w) % 2 ^ w = ((b : Int) + 2 ^ w * (-1)) % 2 ^ w := by
      ring_nf
    rw [h1, Int.add_mul_emod_self_left, Int.emod_eq_of_lt (by positivity) (by omega)]
    omega

theorem intOfBits_range {w b : Nat} (hw : 0 < w) (hb : b < 2 ^ w) :
    -((2 : Int) ^ (w - 1)) ≤ intOfBits w b ∧ intOfBits w b < (2 : Int) ^ (w - 1) := by
  have hsplit : (2 : Int) ^ w = 2 ^ (w - 1) * 2 := by
    conv_lhs => rw [show w = w - 1 + 1 by omega]
    rw [pow_succ]
  have hK : (0 : Int) < 2 ^ (w - 1) := by positivity
  have hcw : ((2 ^ w : Nat) : Int) = (2 : Int) ^ w := by push_cast; ring
  have hcK : ((2 ^ (w - 1) : Nat) : Int) = (2 : Int) ^ (w - 1) := by push_cast; ring
  simp only [intOfBits]
  split <;> constructor <;> omega

theorem int_swap_bytes_involutive {n : Nat} (hn : 0 < n) {v : Int}
    (hlo : -((2 : Int) ^ (8 * n - 1)) ≤ v) (hhi : v < (2 : Int) ^ (8 * n - 1)) :
    Int.swap_bytes n (Int.swap_bytes n v) = v := by
  have hw : 0 < 8 * n := by omega
  have htb : intToBits (8 * n) v < 256 ^ n := by
    rw [pow256_eq]
    exact intToBits_lt (8 * n) v
  have hs : Nat.swap_bytes n (intToBits (8 * n) v) < 2 ^ (8 * n) := by
    rw [← pow256_eq]
    exact swap_bytes_lt n (intToBits (8 * n) v)
  simp only [Int.swap_bytes]
  rw [intToBits_intOfBits hs, swap_bytes_involutive htb]
  exact intOfBits_intToBits hw hlo hhi


/-- Model of `f32`: the value is its IEEE bit pattern, a 32-bit unsigned
integer, so equality is bit-pattern equality. -/
structure Float32 : Type where
  bits : Nat
deriving DecidableEq, Repr

/-- Model of `f32::to_bits`: reinterpret as the same-width unsigned integer. -/
def Float32.to_bits (self : Float32) : Nat :=
  self.bits

/-- Model of `f32::from_bits`: reinterpret an unsigned integer as a float. -/
def Float32.from_bits (b : Nat) : Float32 :=
  ⟨b⟩

/-- Model of `f64`: the value is its IEEE bit pattern, a 64-bit unsigned
integer, so equality is bit-pattern equality. -/
structure Float64 : Type where
  bits : Nat
deriving DecidableEq, Repr

/-- Model of `f64::to_bits`. -/
def Float64.to_bits (self : Float64) : Nat :=
  self.bits

/-- Model of `f64::from_bits`. -/
def Float64.from_bits (b : Nat) : Float64 :=
  ⟨b⟩

/-- The `ByteOrdered` trait (`src/lib.rs`): the one required method is
`swapped_order`, which unconditionally swaps the byte-order of `self`. -/
structure ByteOrdered (α : Type) : Type where
  swapped_order : α → α

/-- The `FieldsByteOrdered` trait (`src/lib.rs`): the one required method is
`swap_field_orders(&mut self)`, modelled as state passing `α → α`. -/
structure FieldsByteOrdered (α : Type) : Type where
  swap_field_orders : α → α

/-- `ByteOrdered::ordered_ne` of the `src/` revision: a match over the two
const patterns `ByteOrder::NATIVE => self` and
`ByteOrder::NATIVE_OPPOSITE => self.swapped_order()`, written out for each of
the two possible compilation targets (`native = Le`: the arms are `Le => self,
Be => swapped`; `native = Be`: the mirror image). -/
def ByteOrdered.ordered_ne (inst : ByteOrdered α) (native : ByteOrder)
    (self : α) (current_order : ByteOrder) : α :=
  match native, current_order with
  | .Le, .Le => self
  | .Le, .Be => inst.swapped_order self
  | .Be, .Be => self
  | .Be, .Le => inst.swapped_order self

/-- `ByteOrdered::ordered_le` of the `src/` revision: exhaustive match
`Le => self, Be => self.swapped_order()`. -/
def ByteOrdered.ordered_le (inst : ByteOrdered α) (self : α)
    (current_order : ByteOrder) : α :=
  match current_order with
  | .Le => self
  | .Be => inst.swapped_order self

/-- `ByteOrdered::ordered_be` of the `src/` revision: exhaustive match
`Be => self, Le => self.swapped_order()`. -/
def ByteOrdered.ordered_be (inst : ByteOrdered α) (self : α)
    (current_order : ByteOrder) : α :=
  match current_order with
  | .Be => self
  | .Le => inst.swapped_order self

/-- `ByteOrdered::ordered_as` of the `src/` revision:
`if current_order == new_order { self } else { self.swapped_order() }`. -/
def ByteOrdered.ordered_as (inst : ByteOrdered α) (self : α)
    (current_order new_order : ByteOrder) : α :=
  if current_order = new_order then self else inst.swapped_order self

/-- `FieldsByteOrdered::order_fields_ne` (identical in both revisions):
`if current_order != ByteOrder::NATIVE { self.swap_field_orders() }`. -/
def FieldsByteOrdered.order_fields_ne (inst : FieldsByteOrdered α)
    (native : ByteOrder) (self : α) (current_order : ByteOrder) : α :=
  if current_order ≠ native then inst.swap_field_orders self else self

/-- `FieldsByteOrdered::order_fields_le` (identical in both revisions):
`if current_order != ByteOrder::Le { self.swap_field_orders() }`. -/
def FieldsByteOrdered.order_fields_le (inst : FieldsByteOrdered α)
    (self : α) (current_order : ByteOrder) : α :=
  if current_order ≠ ByteOrder.Le then inst.swap_field_orders self else self

/-- `FieldsByteOrdered::order_fields_be` (identical in both revisions):
`if current_order != ByteOrder::Be { self.swap_field_orders() }`. -/
def FieldsByteOrdered.order_fields_be (inst : FieldsByteOrdered α)
    (self : α) (current_order : ByteOrder) : α :=
  if current_order ≠ ByteOrder.Be then inst.swap_field_orders self else self

/-- `FieldsByteOrdered::order_fields_as` (`src/` revision only):
`if current_order != new_order { self.swap_field_orders() }`. -/
def FieldsByteOrdered.order_fields_as (inst : FieldsByteOrdered α)
    (self : α) (current_order new_order : ByteOrder) : α :=
  if current_order ≠ new_order then inst.swap_field_orders self else self

/-- `ByteOrdered::ordered_ne` of the `lib/src/` revision: wildcard match
`ByteOrder::NATIVE => self, _ => self.swapped_order()`; the const pattern is
an equality test against the target's native order. -/
def Lib.ordered_ne (inst : ByteOrdered α) (native : ByteOrder)
    (self : α) (current_order : ByteOrder) : α :=
  if current_order = native then self else inst.swapped_order self

/-- `ByteOrdered::ordered_le` of the `lib/src/` revision: wildcard match
`Le => self, _ => self.swapped_order()`. -/
def Lib.ordered_le (inst : ByteOrdered α) (self : α)
    (current_order : ByteOrder) : α :=
  match current_order with
  | .Le => self
  | _ => inst.swapped_order self

/-- `ByteOrdered::ordered_be` of the `lib/src/` revision: wildcard match
`Be => self, _ => self.swapped_order()`. -/
def Lib.ordered_be (inst : ByteOrdered α) (self : α)
    (current_order : ByteOrder) : α :=
  match current_order with
  | .Be => self
  | _ => inst.swapped_order self

/-- `FieldsByteOrdered::order_fields_ne` as written in the `lib/src/`
revision (textually the same guard as in `src/`). -/
def Lib.order_fields_ne (inst : FieldsByteOrdered α) (native : ByteOrder)
    (self : α) (current_order : ByteOrder) : α :=
  if current_order ≠ native then inst.swap_field_orders self else self

/-- `FieldsByteOrdered::order_fields_le` as written in the `lib/src/`
revision. -/
def Lib.order_fields_le (inst : FieldsByteOrdered α) (self : α)
    (current_order : ByteOrder) : α :=
  if current_order ≠ ByteOrder.Le then inst.swap_field_orders self else self

/-- `FieldsByteOrdered::order_fields_be` as written in the `lib/src/`
revision. -/
def Lib.order_fields_be (inst : FieldsByteOrdered α) (self : α)
    (current_order : ByteOrder) : α :=
  if current_order ≠ ByteOrder.Be then inst.swap_field_orders self else self

/-- `impl_ordered_nop!` for `u8` (`core_impls.rs`): `swapped_order` returns
`self` unmodified. -/
def u8_ByteOrdered : ByteOrdered Nat :=
  ⟨fun self => self⟩

/-- `impl_ordered_nop!` for `i8`. -/
def i8_ByteOrdered : ByteOrdered Int :=
  ⟨fun self => self⟩

/-- `impl_ordered_nop!` for `u8`: `swap_field_orders` applies no
modification. -/
def u8_FieldsByteOrdered : FieldsByteOrdered Nat :=
  ⟨fun self => self⟩

/-- `impl_ordered_nop!` for `i8`. -/
def i8_FieldsByteOrdered : FieldsByteOrdered Int :=
  ⟨fun self => self⟩

/-- `impl_ordered_int!` for an unsigned integer type of `numBytes` bytes:
`swapped_order` is `self.swap_bytes()`. -/
def uint_ByteOrdered (numBytes : Nat) : ByteOrdered Nat :=
  ⟨fun self => Nat.swap_bytes numBytes self⟩

/-- `impl_ordered_int!` for a signed integer type of `numBytes` bytes. -/
def int_ByteOrdered (numBytes : Nat) : ByteOrdered Int :=
  ⟨fun self => Int.swap_bytes numBytes self⟩

/-- `impl_ordered_int!` for an unsigned integer type of `numBytes` bytes:
`swap_field_orders` is `*self = self.swap_bytes()`. -/
def uint_FieldsByteOrdered (numBytes : Nat) : FieldsByteOrdered Nat :=
  ⟨fun self => Nat.swap_bytes numBytes self⟩

/-- `impl_ordered_int!` for a signed integer type of `numBytes` bytes. -/
def int_FieldsByteOrdered (numBytes : Nat) : FieldsByteOrdered Int :=
  ⟨fun self => Int.swap_bytes numBytes self⟩

/-- `impl_ordered_float!` for `f32`: `swapped_order` is
`Self::from_bits(self.to_bits().swap_bytes())`. -/
def f32_ByteOrdered : ByteOrdered Float32 :=
  ⟨fun self => Float32.from_bits (Nat.swap_bytes 4 self.to_bits)⟩

/-- `impl_ordered_float!` for `f64`. -/
def f64_ByteOrdered : ByteOrdered Float64 :=
  ⟨fun self => Float64.from_bits (Nat.swap_bytes 8 self.to_bits)⟩

/-- `impl_ordered_float!` for `f32`: `swap_field_orders` is
`*self = Self::from_bits(self.to_bits().swap_bytes())`. -/
def f32_FieldsByteOrdered : FieldsByteOrdered Float32 :=
  ⟨fun self => Float32.from_bits (Nat.swap_bytes 4 self.to_bits)⟩

/-- `impl_ordered_float!` for `f64`. -/
def f64_FieldsByteOrdered : FieldsByteOrdered Float64 :=
  ⟨fun self => Float64.from_bits (Nat.swap_bytes 8 self.to_bits)⟩

/-- The element-wise traversal `self.iter_mut().for_each(T::swap_field_orders)`
used by the `[T]` and `[T; N]` implementations: visit the elements in index
order, replacing each by `f` of it. -/
def iterMutForEach (f : α → α) : List α → List α
  | [] => []
  | x :: xs => f x :: iterMutForEach f xs

/-- `impl FieldsByteOrdered for [T]` (`core_impls.rs`): swap the byte-order of
all the slice's elements. -/
def slice_FieldsByteOrdered (inst : FieldsByteOrdered α) :
    FieldsByteOrdered (List α) :=
  ⟨fun self => iterMutForEach inst.swap_field_orders self⟩

theorem iterMutForEach_eq_map (f : α → α) (l : List α) :
    iterMutForEach f l = l.map f := by
  induction l with
  | nil => rfl
  | cons x xs ih => simp [iterMutForEach, ih]

theorem iterMutForEach_length (f : α → α) (l : List α) :
    (iterMutForEach f l).length = l.length := by
  rw [iterMutForEach_eq_map]
  exact List.length_map l f

/-- `impl FieldsByteOrdered for [T; N]` (`core_impls.rs`): same element-wise
traversal, on lists known to have length `N`. -/
def array_FieldsByteOrdered (inst : FieldsByteOrdered α) (N : Nat) :
    FieldsByteOrdered { l : List α // l.length = N } :=
  ⟨fun self => ⟨iterMutForEach inst.swap_field_orders self.val, by
    rw [iterMutForEach_length, self.property]⟩⟩

/-- Applying one element's `swap_field_orders` alone: replace the element at
index `i` by `f` of it (out-of-range indices leave the list unchanged).  Used
to express the element-wise reading of the container implementations. -/
def modifyIdx (f : α → α) : Nat → List α → List α
  | _, [] => []
  | 0, x :: xs => f x :: xs
  | n + 1, x :: xs => x :: modifyIdx f n xs

theorem modifyIdx_nil (f : α → α) (i : Nat) : modifyIdx f i [] = [] := by
  cases i <;> rfl

theorem modifyIdx_comm (f : α → α) (i j : Nat) (l : List α) :
    modifyIdx f i (modifyIdx f j l) = modifyIdx f j (modifyIdx f i l) := by
  induction l generalizing i j with
  | nil => simp [modifyIdx_nil]
  | cons x xs ih =>
    match i, j with
    | 0, 0 => rfl
    | 0, j + 1 => rfl
    | i + 1, 0 => rfl
    | i + 1, j + 1 => simp [modifyIdx, ih i j]

theorem foldl_modifyIdx_succ (f : α → α) (is : List Nat) (y : α) (ys : List α) :
    (is.map Nat.succ).foldl (fun acc i => modifyIdx f i acc) (y :: ys)
      = y :: is.foldl (fun acc i => modifyIdx f i acc) ys := by
  induction is generalizing ys with
  | nil => rfl
  | cons i is ih => simp [modifyIdx, ih]

theorem foldl_modifyIdx_range (f : α → α) (l : List α) :
    (List.range l.length).foldl (fun acc i => modifyIdx f i acc) l = l.map f := by
  induction l with
  | nil => rfl
  | cons x xs ih =>
    rw [List.length_cons, List.range_succ_eq_map]
    simp only [List.foldl_cons]
    rw [show modifyIdx f 0 (x :: xs) = f x :: xs from rfl]
    rw [foldl_modifyIdx_succ, ih, List.map_cons]

/-- C1: every derived conditional operation of both capabilities leaves the
value unchanged when the supplied current order equals that operation's
target order (native, `Le`, `Be`, or the supplied new order respectively),
and otherwise produces exactly one unconditional swap (`swapped_order` for
scalars, `swap_field_orders` for aggregates). -/
theorem claim_C1_conditional_swap_iff_mismatch {α : Type}
    (inst : ByteOrdered α) (finst : FieldsByteOrdered α)
    (native : ByteOrder) (v : α) (current target : ByteOrder) :
    (inst.ordered_ne native v current
      = if current = native then v else inst.swapped_order v) ∧
    (inst.ordered_le v current
      = if current = ByteOrder.Le then v else inst.swapped_order v) ∧
    (inst.ordered_be v current
      = if current = ByteOrder.Be then v else inst.swapped_order v) ∧
    (inst.ordered_as v current target
      = if current = target then v else inst.swapped_order v) ∧
    (finst.order_fields_ne native v current
      = if current = native then v else finst.swap_field_orders v) ∧
    (finst.order_fields_le v current
      = if current = ByteOrder.Le then v else finst.swap_field_orders v) ∧
    (finst.order_fields_be v current
      = if current = ByteOrder.Be then v else finst.swap_field_orders v) ∧
    (finst.order_fields_as v current target
      = if current = target then v else finst.swap_field_orders v) := by
  cases native <;> cases current <;> cases target <;>
    simp [ByteOrdered.ordered_ne, ByteOrdered.ordered_le,
      ByteOrdered.ordered_be, ByteOrdered.ordered_as,
      FieldsByteOrdered.order_fields_ne, FieldsByteOrdered.order_fields_le,
      FieldsByteOrdered.order_fields_be, FieldsByteOrdered.order_fields_as]

/-- C6: for the 1-byte integer types `i8` and `u8`, `swapped_order` is the
identity on every one of the 256 bit patterns of each type, and
`swap_field_orders` leaves the value unchanged: both capabilities are no-ops
for single-byte types. -/
theorem claim_C6_single_byte_identity :
    (∀ v : Nat, v < 256 → u8_ByteOrdered.swapped_order v = v) ∧
    (∀ v : Int, -128 ≤ v → v < 128 → i8_ByteOrdered.swapped_order v = v) ∧
    (∀ v : Nat, v < 256 → u8_FieldsByteOrdered.swap_field_orders v = v) ∧
    (∀ v : Int, -128 ≤ v → v < 128 →
      i8_FieldsByteOrdered.swap_field_orders v = v) :=
  ⟨fun _ _ => rfl, fun _ _ _ => rfl, fun _ _ => rfl, fun _ _ _ => rfl⟩

/-- C6 witness: the identity instantiated at the extreme concrete bit
patterns 255 and -128. -/
theorem claim_C6_witness :
    u8_ByteOrdered.swapped_order 255 = 255 ∧
    i8_ByteOrdered.swapped_order (-128) = -128 ∧
    u8_FieldsByteOrdered.swap_field_orders 255 = 255 ∧
    i8_FieldsByteOrdered.swap_field_orders (-128) = -128 :=
  ⟨claim_C6_single_byte_identity.1 255 (by decide),
   claim_C6_single_byte_identity.2.1 (-128) (by decide) (by decide),
   claim_C6_single_byte_identity.2.2.1 255 (by decide),
   claim_C6_single_byte_identity.2.2.2 (-128) (by decide) (by decide)⟩

/-- C7: for every primitive scalar type implementing both capabilities, the
mutating aggregate primitive agrees with the pure scalar primitive: the value
stored by `swap_field_orders` equals `swapped_order` of the old value. -/
theorem claim_C7_fields_agrees_with_scalar :
    (∀ v : Nat, u8_FieldsByteOrdered.swap_field_orders v
      = u8_ByteOrdered.swapped_order v) ∧
    (∀ v : Int, i8_FieldsByteOrdered.swap_field_orders v
      = i8_ByteOrdered.swapped_order v) ∧
    (∀ numBytes : Nat, ∀ v : Nat,
      (uint_FieldsByteOrdered numBytes).swap_field_orders v
        = (uint_ByteOrdered numBytes).swapped_order v) ∧
    (∀ numBytes : Nat, ∀ v : Int,
      (int_FieldsByteOrdered numBytes).swap_field_orders v
        = (int_ByteOrdered numBytes).swapped_order v) ∧
    (∀ x : Float32, f32_FieldsByteOrdered.swap_field_orders x
      = f32_ByteOrdered.swapped_order x) ∧
    (∀ x : Float64, f64_FieldsByteOrdered.swap_field_orders x
      = f64_ByteOrdered.swapped_order x) :=
  ⟨fun _ => rfl, fun _ => rfl, fun _ _ => rfl, fun _ _ => rfl,
   fun _ => rfl, fun _ => rfl⟩

/-- C9: the exhaustive-match derivation style of the `src/` revision and the
wildcard-match derivation style of the `lib/src/` revision agree on every
operation present in both revisions, for every instance, value and order:
the two styles are extensionally equal because `ByteOrder` has exactly two
values. -/
theorem claim_C9_two_styles_equivalent {α : Type}
    (inst : ByteOrdered α) (finst : FieldsByteOrdered α)
    (native : ByteOrder) (v : α) (current : ByteOrder) :
    Lib.ordered_ne inst native v current = inst.ordered_ne native v current ∧
    Lib.ordered_le inst v current = inst.ordered_le v current ∧
    Lib.ordered_be inst v current = inst.ordered_be v current ∧
    Lib.order_fields_ne finst native v current
      = finst.order_fields_ne native v current ∧
    Lib.order_fields_le finst v current = finst.order_fields_le v current ∧
    Lib.order_fields_be finst v current = finst.order_fields_be v current := by
  cases native <;> cases current <;>
    simp [Lib.ordered_ne, Lib.ordered_le, Lib.ordered_be,
      Lib.order_fields_ne, Lib.order_fields_le, Lib.order_fields_be,
      ByteOrdered.ordered_ne, ByteOrdered.ordered_le, ByteOrdered.ordered_be,
      FieldsByteOrdered.order_fields_ne, FieldsByteOrdered.order_fields_le,
      FieldsByteOrdered.order_fields_be]

/-- C10: `swap_field_orders` on a slice or array never changes the number of
elements, and on an empty slice or zero-length array it is the identity. -/
theorem claim_C10_frame_length_preserved :
    (∀ (α : Type) (inst : FieldsByteOrdered α) (l : List α),
      ((slice_FieldsByteOrdered inst).swap_field_orders l).length = l.length) ∧
    (∀ (α : Type) (inst : FieldsByteOrdered α),
      (slice_FieldsByteOrdered inst).swap_field_orders ([] : List α) = []) ∧
    (∀ (α : Type) (inst : FieldsByteOrdered α) (N : Nat)
        (a : { l : List α // l.length = N }),
      ((array_FieldsByteOrdered inst N).swap_field_orders a).val.length = N) ∧
    (∀ (α : Type) (inst : FieldsByteOrdered α)
        (a : { l : List α // l.length = 0 }),
      (array_FieldsByteOrdered inst 0).swap_field_orders a = a) := by
  refine ⟨?_, ?_, ?_, ?_⟩
  · intro α inst l
    exact iterMutForEach_length inst.swap_field_orders l
  · intro α inst
    rfl
  · intro α inst N a
    exact ((array_FieldsByteOrdered inst N).swap_field_orders a).property
  · intro α inst a
    have hnil : a.val = [] := List.length_eq_zero.mp a.property
    apply Subtype.ext
    show iterMutForEach inst.swap_field_orders a.val = a.val
    rw [hnil]
    rfl

theorem float32_swap_involutive {x : Float32} (h : x.bits < 2 ^ 32) :
    f32_ByteOrdered.swapped_order (f32_ByteOrdered.swapped_order x) = x := by
  have hb : x.bits < 256 ^ 4 := by
    rw [pow256_eq]
    exact h
  show Float32.from_bits (Nat.swap_bytes 4 (Nat.swap_bytes 4 x.bits)) = x
  rw [swap_bytes_involutive hb]
  rfl

theorem float64_swap_involutive {x : Float64} (h : x.bits < 2 ^ 64) :
    f64_ByteOrdered.swapped_order (f64_ByteOrdered.swapped_order x) = x := by
  have hb : x.bits < 256 ^ 8 := by
    rw [pow256_eq]
    exact h
  show Float64.from_bits (Nat.swap_bytes 8 (Nat.swap_bytes 8 x.bits)) = x
  rw [swap_bytes_involutive hb]
  rfl

theorem uint_swap_involutive {n v : Nat} (h : v < 2 ^ (8 * n)) :
    (uint_ByteOrdered n).swapped_order ((uint_ByteOrdered n).swapped_order v)
      = v := by
  have hb : v < 256 ^ n := by
    rw [pow256_eq]
    exact h
  exact swap_bytes_involutive hb

theorem int_swap_involutive {n : Nat} (hn : 0 < n) {v : Int}
    (hlo : -((2 : Int) ^ (8 * n - 1)) ≤ v) (hhi : v < (2 : Int) ^ (8 * n - 1)) :
    (int_ByteOrdered n).swapped_order ((int_ByteOrdered n).swapped_order v)
      = v :=
  int_swap_bytes_involutive hn hlo hhi

/-- C2: for every scalar type the library implements `ByteOrdered` for
(`i8`, `u8`, the 16/32/64/128-bit and pointer-width integers, `f32`, `f64`)
and every value of that type, `swapped_order` is involutive, with equality
taken at the bit-pattern level for the floating-point types. -/
theorem claim_C2_swapped_order_involutive :
    (∀ v : Int, -128 ≤ v → v < 128 →
      i8_ByteOrdered.swapped_order (i8_ByteOrdered.swapped_order v) = v) ∧
    (∀ v : Nat, v < 256 →
      u8_ByteOrdered.swapped_order (u8_ByteOrdered.swapped_order v) = v) ∧
    (∀ v : Int, -(2 ^ 15) ≤ v → v < 2 ^ 15 →
      (int_ByteOrdered 2).swapped_order
        ((int_ByteOrdered 2).swapped_order v) = v) ∧
    (∀ v : Nat, v < 2 ^ 16 →
      (uint_ByteOrdered 2).swapped_order
        ((uint_ByteOrdered 2).swapped_order v) = v) ∧
    (∀ v : Int, -(2 ^ 31) ≤ v → v < 2 ^ 31 →
      (int_ByteOrdered 4).swapped_order
        ((int_ByteOrdered 4).swapped_order v) = v) ∧
    (∀ v : Nat, v < 2 ^ 32 →
      (uint_ByteOrdered 4).swapped_order
        ((uint_ByteOrdered 4).swapped_order v) = v) ∧
    (∀ v : Int, -(2 ^ 63) ≤ v → v < 2 ^ 63 →
      (int_ByteOrdered 8).swapped_order
        ((int_ByteOrdered 8).swapped_order v) = v) ∧
    (∀ v : Nat, v < 2 ^ 64 →
      (uint_ByteOrdered 8).swapped_order
        ((uint_ByteOrdered 8).swapped_order v) = v) ∧
    (∀ v : Int, -(2 ^ 127) ≤ v → v < 2 ^ 127 →
      (int_ByteOrdered 16).swapped_order
        ((int_ByteOrdered 16).swapped_order v) = v) ∧
    (∀ v : Nat, v < 2 ^ 128 →
      (uint_ByteOrdered 16).swapped_order
        ((uint_ByteOrdered 16).swapped_order v) = v) ∧
    (∀ ptrBytes : Nat, 0 < ptrBytes → ∀ v : Int,
      -((2 : Int) ^ (8 * ptrBytes - 1)) ≤ v → v < (2 : Int) ^ (8 * ptrBytes - 1) →
      (int_ByteOrdered ptrBytes).swapped_order
        ((int_ByteOrdered ptrBytes).swapped_order v) = v) ∧
    (∀ ptrBytes : Nat, ∀ v : Nat, v < 2 ^ (8 * ptrBytes) →
      (uint_ByteOrdered ptrBytes).swapped_order
        ((uint_ByteOrdered ptrBytes).swapped_order v) = v) ∧
    (∀ x : Float32, x.bits < 2 ^ 32 →
      f32_ByteOrdered.swapped_order (f32_ByteOrdered.swapped_order x) = x) ∧
    (∀ x : Float64, x.bits < 2 ^ 64 →
      f64_ByteOrdered.swapped_order (f64_ByteOrdered.swapped_order x) = x) := by
  refine ⟨fun v _ _ => rfl, fun v _ => rfl, ?_, ?_, ?_, ?_, ?_, ?_, ?_, ?_,
    ?_, ?_, ?_, ?_⟩
  · intro v hlo hhi
    exact int_swap_involutive (by norm_num) (by norm_num at hlo ⊢; omega)
      (by norm_num at hhi ⊢; omega)
  · intro v h
    exact uint_swap_involutive (by norm_num at h ⊢; omega)
  · intro v hlo hhi
    exact int_swap_involutive (by norm_num) (by norm_num at hlo ⊢; omega)
      (by norm_num at hhi ⊢; omega)
  · intro v h
    exact uint_swap_involutive (by norm_num at h ⊢; omega)
  · intro v hlo hhi
    exact int_swap_involutive (by norm_num) (by norm_num at hlo ⊢; omega)
      (by norm_num at hhi ⊢; omega)
  · intro v h
    exact uint_swap_involutive (by norm_num at h ⊢; omega)
  · intro v hlo hhi
    exact int_swap_involutive (by norm_num) (by norm_num at hlo ⊢; omega)
      (by norm_num at hhi ⊢; omega)
  · intro v h
    exact uint_swap_involutive (by norm_num at h ⊢; omega)
  · intro ptrBytes hp v hlo hhi
    exact int_swap_involutive hp hlo hhi
  · intro ptrBytes v h
    exact uint_swap_involutive h
  · intro x h
    exact float32_swap_involutive h
  · intro x h
    exact float64_swap_involutive h

/-- C2 witness: involution instantiated at concrete values of concrete
types, among them a 32-bit unsigned value, a negative 16-bit value and a
NaN-payload 64-bit float pattern. -/
theorem claim_C2_witness :
    (uint_ByteOrdered 4).swapped_order
      ((uint_ByteOrdered 4).swapped_order 0x12345678) = 0x12345678 ∧
    (int_ByteOrdered 2).swapped_order
      ((int_ByteOrdered 2).swapped_order (-2)) = -2 ∧
    i8_ByteOrdered.swapped_order (i8_ByteOrdered.swapped_order (-77)) = -77 ∧
    f64_ByteOrdered.swapped_order
      (f64_ByteOrdered.swapped_order ⟨0x7FF8000000000001⟩)
        = (⟨0x7FF8000000000001⟩ : Float64) :=
  ⟨claim_C2_swapped_order_involutive.2.2.2.2.2.1 0x12345678 (by decide),
   claim_C2_swapped_order_involutive.2.2.1 (-2) (by decide) (by decide),
   claim_C2_swapped_order_involutive.1 (-77) (by decide) (by decide),
   claim_C2_swapped_order_involutive.2.2.2.2.2.2.2.2.2.2.2.2.2
     ⟨0x7FF8000000000001⟩ (by decide)⟩

/-- C3: for multi-byte integers, `swapped_order` performs a full reversal of
the byte representation (unsigned directly; signed through the
two's-complement bit pattern); concretely `0x12345678` swaps to
`0x78563412`, and on a native-little-endian target `ordered_ne` with
declared current order Little returns the input unchanged while declared
current order Big returns the swapped value. -/
theorem claim_C3_multibyte_full_reversal :
    (∀ n v : Nat, leBytes n ((uint_ByteOrdered n).swapped_order v)
      = (leBytes n v).reverse) ∧
    (∀ n : Nat, ∀ v : Int,
      leBytes n (intToBits (8 * n) ((int_ByteOrdered n).swapped_order v))
        = (leBytes n (intToBits (8 * n) v)).reverse) ∧
    (uint_ByteOrdered 4).swapped_order 0x12345678 = 0x78563412 ∧
    (uint_ByteOrdered 4).ordered_ne ByteOrder.Le 0x12345678 ByteOrder.Le
      = 0x12345678 ∧
    (uint_ByteOrdered 4).ordered_ne ByteOrder.Le 0x12345678 ByteOrder.Be
      = 0x78563412 := by
  refine ⟨?_, ?_, by decide, by decide, by decide⟩
  · intro n v
    exact leBytes_swap_bytes n v
  · intro n v
    show leBytes n (intToBits (8 * n)
      (intOfBits (8 * n) (Nat.swap_bytes n (intToBits (8 * n) v))))
      = (leBytes n (intToBits (8 * n) v)).reverse
    rw [intToBits_intOfBits (by rw [← pow256_eq]; exact swap_bytes_lt n _)]
    exact leBytes_swap_bytes n _

/-- C5: for the floating-point types, `swapped_order` is reinterpret as the
same-width unsigned integer, byte-reverse, reinterpret back; swapping a
64-bit float twice returns the exact original bit pattern, including for
NaN-payload-bearing values, with equality judged on bit patterns. -/
theorem claim_C5_float_bit_pattern :
    (∀ x : Float32, f32_ByteOrdered.swapped_order x
      = Float32.from_bits (Nat.swap_bytes 4 x.to_bits)) ∧
    (∀ x : Float64, f64_ByteOrdered.swapped_order x
      = Float64.from_bits (Nat.swap_bytes 8 x.to_bits)) ∧
    (∀ x : Float64, x.bits < 2 ^ 64 →
      (f64_ByteOrdered.swapped_order
        (f64_ByteOrdered.swapped_order x)).to_bits = x.to_bits) ∧
    (f64_ByteOrdered.swapped_order (f64_ByteOrdered.swapped_order
      (Float64.from_bits 0x7FF0000000000F0F))).to_bits
        = 0x7FF0000000000F0F := by
  refine ⟨fun x => rfl, fun x => rfl, ?_, by decide⟩
  intro x h
  rw [float64_swap_involutive h]

/-- C5 witness: the double swap instantiated at a NaN bit pattern with a
nonzero payload. -/
theorem claim_C5_witness :
    (f64_ByteOrdered.swapped_order (f64_ByteOrdered.swapped_order
      (⟨0x7FF8DEADBEEF0001⟩ : Float64))).to_bits = 0x7FF8DEADBEEF0001 :=
  claim_C5_float_bit_pattern.2.2.1 ⟨0x7FF8DEADBEEF0001⟩ (by decide)

/-- C8: round-trip through the two orders: converting a value with declared
current order Little to big-endian and then the result with declared current
order Big to little-endian returns the original value, for every supported
scalar type. -/
theorem claim_C8_round_trip :
    (∀ v : Int, -128 ≤ v → v < 128 →
      i8_ByteOrdered.ordered_le
        (i8_ByteOrdered.ordered_be v ByteOrder.Le) ByteOrder.Be = v) ∧
    (∀ v : Nat, v < 256 →
      u8_ByteOrdered.ordered_le
        (u8_ByteOrdered.ordered_be v ByteOrder.Le) ByteOrder.Be = v) ∧
    (∀ n : Nat, 0 < n → ∀ v : Int,
      -((2 : Int) ^ (8 * n - 1)) ≤ v → v < (2 : Int) ^ (8 * n - 1) →
      (int_ByteOrdered n).ordered_le
        ((int_ByteOrdered n).ordered_be v ByteOrder.Le) ByteOrder.Be = v) ∧
    (∀ n : Nat, ∀ v : Nat, v < 2 ^ (8 * n) →
      (uint_ByteOrdered n).ordered_le
        ((uint_ByteOrdered n).ordered_be v ByteOrder.Le) ByteOrder.Be = v) ∧
    (∀ x : Float32, x.bits < 2 ^ 32 →
      f32_ByteOrdered.ordered_le
        (f32_ByteOrdered.ordered_be x ByteOrder.Le) ByteOrder.Be = x) ∧
    (∀ x : Float64, x.bits < 2 ^ 64 →
      f64_ByteOrdered.ordered_le
        (f64_ByteOrdered.ordered_be x ByteOrder.Le) ByteOrder.Be = x) := by
  refine ⟨fun v _ _ => rfl, fun v _ => rfl, ?_, ?_, ?_, ?_⟩
  · intro n hn v hlo hhi
    show (int_ByteOrdered n).swapped_order
      ((int_ByteOrdered n).swapped_order v) = v
    exact int_swap_involutive hn hlo hhi
  · intro n v h
    show (uint_ByteOrdered n).swapped_order
      ((uint_ByteOrdered n).swapped_order v) = v
    exact uint_swap_involutive h
  · intro x h
    show f32_ByteOrdered.swapped_order (f32_ByteOrdered.swapped_order x) = x
    exact float32_swap_involutive h
  · intro x h
    show f64_ByteOrdered.swapped_order (f64_ByteOrdered.swapped_order x) = x
    exact float64_swap_involutive h

/-- C8 witness: the round trip instantiated at concrete 32-bit unsigned,
16-bit signed and 64-bit float values. -/
theorem claim_C8_witness :
    (uint_ByteOrdered 4).ordered_le
      ((uint_ByteOrdered 4).ordered_be 0x12345678 ByteOrder.Le) ByteOrder.Be
        = 0x12345678 ∧
    (int_ByteOrdered 2).ordered_le
      ((int_ByteOrdered 2).ordered_be (-12345) ByteOrder.Le) ByteOrder.Be
        = -12345 ∧
    f64_ByteOrdered.ordered_le
      (f64_ByteOrdered.ordered_be (⟨0x7FF8000000000001⟩ : Float64)
        ByteOrder.Le) ByteOrder.Be = (⟨0x7FF8000000000001⟩ : Float64) :=
  ⟨claim_C8_round_trip.2.2.2.1 4 0x12345678 (by decide),
   claim_C8_round_trip.2.2.1 2 (by decide) (-12345) (by decide) (by decide),
   claim_C8_round_trip.2.2.2.2.2 ⟨0x7FF8000000000001⟩ (by decide)⟩

theorem foldl_modifyIdx_perm (f : α → α) (l : List α) {is1 is2 : List Nat}
    (hp : is1.Perm is2) :
    is1.foldl (fun acc i => modifyIdx f i acc) l
      = is2.foldl (fun acc i => modifyIdx f i acc) l :=
  hp.foldl_eq' (fun x _ y _ z => modifyIdx_comm f y x z) l

/-- C4: for slices and fixed-size arrays of a `FieldsByteOrdered` element
type, `swap_field_orders` on the container equals applying the element swap
independently to each element in index order, the result is independent of
the order in which the element swaps are applied, and concretely
`[0x0001u16, 0x0002u16]` becomes `[0x0100u16, 0x0200u16]`. -/
theorem claim_C4_container_homomorphism :
    (∀ (α : Type) (inst : FieldsByteOrdered α) (l : List α),
      (slice_FieldsByteOrdered inst).swap_field_orders l
        = l.map inst.swap_field_orders) ∧
    (∀ (α : Type) (inst : FieldsByteOrdered α) (N : Nat)
        (a : { l : List α // l.length = N }),
      ((array_FieldsByteOrdered inst N).swap_field_orders a).val
        = a.val.map inst.swap_field_orders) ∧
    (∀ (α : Type) (inst : FieldsByteOrdered α) (l : List α),
      (List.range l.length).foldl
          (fun acc i => modifyIdx inst.swap_field_orders i acc) l
        = (slice_FieldsByteOrdered inst).swap_field_orders l) ∧
    (∀ (α : Type) (inst : FieldsByteOrdered α) (l : List α)
        (is1 is2 : List Nat), is1.Perm is2 →
      is1.foldl (fun acc i => modifyIdx inst.swap_field_orders i acc) l
        = is2.foldl (fun acc i => modifyIdx inst.swap_field_orders i acc) l) ∧
    (slice_FieldsByteOrdered (uint_FieldsByteOrdered 2)).swap_field_orders
      [0x0001, 0x0002] = [0x0100, 0x0200] ∧
    ((array_FieldsByteOrdered (uint_FieldsByteOrdered 2) 2).swap_field_orders
      ⟨[0x0001, 0x0002], rfl⟩).val = [0x0100, 0x0200] := by
  refine ⟨?_, ?_, ?_, ?_, by decide, by decide⟩
  · intro α inst l
    exact iterMutForEach_eq_map inst.swap_field_orders l
  · intro α inst N a
    exact iterMutForEach_eq_map inst.swap_field_orders a.val
  · intro α inst l
    rw [foldl_modifyIdx_range]
    exact (iterMutForEach_eq_map inst.swap_field_orders l).symm
  · intro α inst l is1 is2 hp
    exact foldl_modifyIdx_perm inst.swap_field_orders l hp

/-- C4 witness: order independence instantiated on the concrete two-element
`u16` array, swapping element 0 then 1 versus element 1 then 0. -/
theorem claim_C4_witness :
    [0, 1].foldl
      (fun acc i => modifyIdx (uint_FieldsByteOrdered 2).swap_field_orders
        i acc) [0x0001, 0x0002]
    = [1, 0].foldl
      (fun acc i => modifyIdx (uint_FieldsByteOrdered 2).swap_field_orders
        i acc) [0x0001, 0x0002] :=
  claim_C4_container_homomorphism.2.2.2.1 Nat (uint_FieldsByteOrdered 2)
    [0x0001, 0x0002] [0, 1] [1, 0] (List.Perm.swap 1 0 [])
